import Mathlib

/-!
Verification of `scripts/fetch_steering_vectors.py` (repository JiayiJennie/Arcade).

The script computes "steering vectors": per-layer mean differences of hidden
states between a high group and a low group of sequences.  We give a shallow
embedding: Python lists/tensors become nested Lean lists over `ℚ`, the model
forward pass is an explicit function parameter from a tokenized batch to the
tuple of hidden-state tensors, fallible control flow returns `Except String`.

External collaborators (the transformer model, the HuggingFace tokenizer, the
CodonBERT `mytok` helper, FASTA parsing) are not part of the repository; where
a claim depends on them they are modelled from the spec, marked
`Modelled from the spec:` in their doc comments.  FASTA files are represented
by the list of their record sequences (each a `List Char`).
-/

set_option autoImplicit false
set_option maxRecDepth 100000

universe u v w

/-- a 1-d tensor (one embedding vector). -/
abbrev Tensor1 : Type := List ℚ

/-- a 2-d tensor, e.g. (positions, embedding). -/
abbrev Tensor2 : Type := List Tensor1

/-- a 3-d tensor, e.g. (batch, positions, embedding). -/
abbrev Tensor3 : Type := List Tensor2

/-- a 4-d tensor, e.g. (layers, batch, positions, embedding). -/
abbrev Tensor4 : Type := List Tensor3

/-- elementwise negation of a 1-d tensor. -/
def neg1 (v : Tensor1) : Tensor1 := v.map (fun q => -q)

/-- elementwise negation of a 2-d tensor. -/
def neg2 (m : Tensor2) : Tensor2 := m.map neg1

/-- elementwise negation of a 3-d tensor. -/
def neg3 (t : Tensor3) : Tensor3 := t.map neg2

/-- elementwise negation of a 4-d tensor (`- steering_vectors`, line 112). -/
def neg4 (t : Tensor4) : Tensor4 := t.map neg3

/-- elementwise subtraction of 1-d tensors. -/
def sub1 (a b : Tensor1) : Tensor1 := List.zipWith (fun x y => x - y) a b

/-- elementwise subtraction of 2-d tensors. -/
def sub2 (a b : Tensor2) : Tensor2 := List.zipWith sub1 a b

/-- elementwise subtraction of 3-d tensors. -/
def sub3 (a b : Tensor3) : Tensor3 := List.zipWith sub2 a b

/-- elementwise subtraction of 4-d tensors
(`top_steering_vectors - low_steering_vectors`, line 109). -/
def sub4 (a b : Tensor4) : Tensor4 := List.zipWith sub3 a b

/-- elementwise addition of 2-d tensors. -/
def add2 (a b : Tensor2) : Tensor2 := List.zipWith (List.zipWith (fun x y => x + y)) a b

/-- elementwise sum of a list of 2-d tensors (the summation inside
`numpy.mean(axis=1)`). -/
def sum2 : List Tensor2 → Tensor2
  | [] => []
  | [x] => x
  | x :: y :: ys => add2 x (sum2 (y :: ys))

/-- elementwise mean of a list of 2-d tensors. -/
def mean2 (xs : List Tensor2) : Tensor2 :=
  (sum2 xs).map (fun row => row.map (fun q => q / (xs.length : ℚ)))

/-- `numpy.mean(axis=1, keepdims=True)` on a (layers, batch, positions,
embedding) tensor: collapse axis 1 to a single mean slice (lines 95 and 107). -/
def meanDim1Keep (t : Tensor4) : Tensor4 := t.map (fun layer => [mean2 layer])

/-- `torch.stack(..., dim=0)` on a list of equally shaped 3-d tensors: in the
nested-list representation the stacked 4-d tensor is the list itself
(lines 90 and 102). -/
def stackDim0 (ts : List Tensor3) : Tensor4 := ts

/-- `torch.cat(..., dim=1)` on a list of (layers, batch, positions, embedding)
tensors: concatenate the per-layer slices (lines 92 and 104). -/
def catDim1 : List Tensor4 → Tensor4
  | [] => []
  | [t] => t
  | t :: t₂ :: ts => List.zipWith (fun a b => a ++ b) t (catDim1 (t₂ :: ts))

/-- the batch slices `l[i:i+batch_size]` for `i in range(0, len(l), batch_size)`
(lines 86 and 99). -/
def chunks {α : Type u} (batch_size : Nat) (l : List α) : List (List α) :=
  (List.range ((l.length + batch_size - 1) / batch_size)).map
    (fun i => (l.drop (i * batch_size)).take batch_size)

/-- the space character used by the 3-mer joiner and the whitespace
pre-tokenizer. -/
def spaceChar : Char := ' '

/-- Modelled from the spec: `mytok` (imported from the external CodonBERT
tokenizer utilities, not part of this repository) splits a sequence into
overlapping k-character tokens.  The spec describes overlapping 3-mers; the
stride argument is not reflected in the spec wording and is ignored here. -/
def mytok (seq : List Char) (k _s : Nat) : List (List Char) :=
  (List.range (seq.length - (k - 1))).map (fun j => (seq.drop j).take k)

/-- Python `" ".join` on a list of character strings (line 20). -/
def joinSpace : List (List Char) → List Char
  | [] => []
  | [t] => t
  | t :: t₂ :: ts => t ++ spaceChar :: joinSpace (t₂ :: ts)

/-- splitting a character string on single spaces (the whitespace
pre-tokenization step inside the external tokenizer). -/
def splitOnSpace : List Char → List (List Char)
  | [] => [[]]
  | c :: cs =>
    if c = spaceChar then [] :: splitOnSpace cs
    else
      match splitOnSpace cs with
      | [] => [[c]]
      | w :: ws => (c :: w) :: ws

/-- Modelled from the spec: the external tokenizer called with
`padding="max_length", truncation=True, max_length=max_length` (line 21).
It splits each text on spaces, maps every token to an id through the
vocabulary, truncates to `max_length` ids and pads with the pad id 0 up to
exactly `max_length` ids. -/
def hfTokenize (vocab : List Char → Nat) (max_length : Nat)
    (texts : List (List Char)) : List (List Nat) :=
  texts.map (fun t =>
    let ids := (splitOnSpace t).map vocab
    ids.take max_length ++ List.replicate (max_length - ids.length) 0)

/-- `encode_sequences` (lines 19-22): split each sequence into 3-mers with
`mytok(seq, 3, 3)`, space-join them, and tokenize with fixed-length
padding/truncation. -/
def encode_sequences (sequences : List (List Char)) (vocab : List Char → Nat)
    (max_length : Nat) : List (List Nat) :=
  let tokenized_sequences := sequences.map (fun seq => joinSpace (mytok seq 3 3))
  hfTokenize vocab max_length tokenized_sequences

/-- `tensor.size(1)` of the (n, max_length) token tensor returned by the
tokenizer: the common row length (rows are uniformly `max_length` by
construction of `hfTokenize`). -/
def size1 (t : List (List Nat)) : Nat := (t.headD []).length

/-- one group's hidden-state pooling (lines 84-95 for the top group, repeated
verbatim in lines 97-107 for the low group): iterate over batches of 32,
run the model with `output_hidden_states=True`, drop the first hidden-states
entry (the pre-encoder embedding, `hidden_states[1:]`), stack the encoder
layer outputs along a new dim 0, concatenate all batches along dim 1, and
mean-pool over dim 1 keeping it as size 1. -/
def groupPool (model : List (List Nat) → List Tensor3)
    (seqs : List (List Nat)) : Tensor4 :=
  meanDim1Keep (catDim1 ((chunks 32 seqs).map
    (fun batch => stackDim0 ((model batch).drop 1))))

/-- the aggregation tail of `fetch_steering_vector` (lines 84-114): pool each
group, subtract low from high, and negate the difference when the (lowered)
data type is mfe (lines 111-112). -/
def aggregate (d : String) (model : List (List Nat) → List Tensor3)
    (top_seqs low_seqs : List (List Nat)) : Tensor4 :=
  let steering_vectors := sub4 (groupPool model top_seqs) (groupPool model low_seqs)
  if d = "mfe" then neg4 steering_vectors else steering_vectors

/-- message of the `ValueError` for an unrecognized data type (line 48;
quotes in the original message elided). -/
def valueErrorDataType : String := "data_type must be mfe or cai or mfe_cai or fasta."

/-- message of the `ValueError` for a missing blending coefficient (line 40). -/
def valueErrorLambda : String := "Must provide lambda_ for mfe_cai data type."

/-- message of the `ValueError` for a missing selection percentage (line 68). -/
def valueErrorPercent : String := "Must provide either percent or cai_threshold (only for cai)."

/-- the `NameError` raised when the undefined score-table variable `df` is
read (lines 42 and 57): `df` is never assigned or passed in. -/
def nameErrorDf : String := "NameError: name df is not defined"

/-- the `AssertionError` from `assert high_fa_path is not None and
low_fa_path is not None` (line 44). -/
def assertErrorPaths : String :=
  "AssertionError: high_fa_path is not None and low_fa_path is not None"

/-- the `AssertionError` from `assert top_seqs.size(1) == low_seqs.size(1)`
(line 79). -/
def assertErrorSize : String :=
  "AssertionError: top_seqs.size(1) equals low_seqs.size(1)"

/-- Python `str.lower()` (adequate for the ASCII data-type flags used here). -/
def pyLower (s : String) : String := String.mk (s.data.map Char.toLower)

/-- `fetch_steering_vector` (lines 24-114).  The `model` argument is the
forward pass on one tokenized batch, returning the tuple of hidden-state
tensors (one per layer, including the pre-encoder embedding first).  The
`vocab` argument stands for the external tokenizer vocabulary.  FASTA paths
are modelled by the parsed record sequences (`none` = the Python `None`).
The parameters `sequences`, `min_seq_len`, `max_seq_len` and `device` of the
source are omitted: `device` only moves tensors, and the others are consumed
exclusively by lines that first read the undefined name `df`, which here
yields the `nameErrorDf` result (the selection computation those lines
express with `df` in scope is `selectPercent` below).

Control flow, mirroring the source: the validation chain (lines 33-48)
either records the score column (mfe, cai), checks `lambda_` and then hits
the undefined `df` (mfe_cai, lines 39-42), or checks the FASTA paths
(lines 43-46); then the selection stage (lines 53-68) reads `df` when
`percent` is given and otherwise raises; the fasta branch encodes both
groups with `max_length = 1024` (lines 75-78), asserts equal token lengths
(line 79) and aggregates (lines 84-114). -/
def fetch_steering_vector (data_type : String)
    (model : List (List Nat) → List Tensor3) (vocab : List Char → Nat)
    (percent : Option ℚ) (lambda_ : Option ℚ)
    (high_fa_path low_fa_path : Option (List (List Char))) :
    Except String Tensor4 :=
  let d := pyLower data_type
  if d = "mfe" ∨ d = "cai" then
    match percent with
    | some _ => Except.error nameErrorDf
    | none => Except.error valueErrorPercent
  else if d = "mfe_cai" then
    match lambda_ with
    | none => Except.error valueErrorLambda
    | some _ => Except.error nameErrorDf
  else if d = "fasta" then
    match high_fa_path, low_fa_path with
    | some high_fa, some low_fa =>
      let top_seqs := encode_sequences high_fa vocab 1024
      let low_seqs := encode_sequences low_fa vocab 1024
      if size1 top_seqs = size1 low_seqs then
        Except.ok (aggregate d model top_seqs low_seqs)
      else Except.error assertErrorSize
    | _, _ => Except.error assertErrorPaths
  else Except.error valueErrorDataType

/-- a row of the per-sequence score table the selection modes rank
(`MFE_normalized` for mfe, `CAI` for cai).  The derived `score` column of the
mfe_cai mode is never materialized because the assignment to `df` on line 42
already fails; see `nameErrorDf`. -/
structure ScoreRow where
  ID : List Char
  MFE_normalized : ℚ
  CAI : ℚ

/-- reading a score column of a row by its name (`value_col` in the source).
Only the two columns assigned on lines 34 and 36 are ever read by a run that
reaches the ranking. -/
def colVal (value_col : String) (r : ScoreRow) : ℚ :=
  if value_col = "MFE_normalized" then r.MFE_normalized
  else if value_col = "CAI" then r.CAI
  else 0

/-- insertion into a descending-sorted list, keeping earlier rows before
later rows with an equal key (pandas `nlargest` keeps first occurrences). -/
def insertDesc (key : ScoreRow → ℚ) (x : ScoreRow) : List ScoreRow → List ScoreRow
  | [] => [x]
  | y :: ys => if key y ≤ key x then x :: y :: ys else y :: insertDesc key x ys

/-- sorting rows by a key, descending. -/
def sortDesc (key : ScoreRow → ℚ) : List ScoreRow → List ScoreRow
  | [] => []
  | x :: xs => insertDesc key x (sortDesc key xs)

/-- insertion into an ascending-sorted list, keeping earlier rows before
later rows with an equal key (pandas `nsmallest` keeps first occurrences). -/
def insertAsc (key : ScoreRow → ℚ) (x : ScoreRow) : List ScoreRow → List ScoreRow
  | [] => [x]
  | y :: ys => if key x ≤ key y then x :: y :: ys else y :: insertAsc key x ys

/-- sorting rows by a key, ascending. -/
def sortAsc (key : ScoreRow → ℚ) : List ScoreRow → List ScoreRow
  | [] => []
  | x :: xs => insertAsc key x (sortAsc key xs)

/-- pandas `DataFrame.nlargest(n, col)`: the first n rows in descending order
of the column (line 61). -/
def nlargest (n : Nat) (key : ScoreRow → ℚ) (df : List ScoreRow) : List ScoreRow :=
  (sortDesc key df).take n

/-- pandas `DataFrame.nsmallest(n, col)`: the first n rows in ascending order
of the column (line 62). -/
def nsmallest (n : Nat) (key : ScoreRow → ℚ) (df : List ScoreRow) : List ScoreRow :=
  (sortAsc key df).take n

/-- Python `int()` on a rational: truncation toward zero. -/
def pyInt (q : ℚ) : Int := Int.tdiv q.num (q.den : Int)

/-- the sequence-length filter of lines 57-58: keep the rows whose sequence
has length between `min_seq_len` and `max_seq_len` inclusive. -/
def lengthFilter (df : List ScoreRow) (sequences : List Char → List Char)
    (min_seq_len max_seq_len : Nat) : List ScoreRow :=
  df.filter (fun r =>
    decide (min_seq_len ≤ (sequences r.ID).length) &&
    decide ((sequences r.ID).length ≤ max_seq_len))

/-- the percentile selection computation of lines 56-66.  In the source the
table `df` is a free name that is never defined (the run fails with
`nameErrorDf`, see the claims about name resolution); this definition states
the computation those lines express with `df` and the `sequences` lookup in
scope: filter by sequence length, let `n = int(len(df) * percent)`, take the
`n` largest and `n` smallest rows by the chosen score column, and map each
selected row id to its sequence. -/
def selectPercent (df : List ScoreRow) (sequences : List Char → List Char)
    (value_col : String) (percent : ℚ) (min_seq_len max_seq_len : Nat) :
    List (List Char) × List (List Char) :=
  let df₂ := lengthFilter df sequences min_seq_len max_seq_len
  let n := (pyInt ((df₂.length : ℚ) * percent)).toNat
  let top_seqs := nlargest n (colVal value_col) df₂
  let bottom_seqs := nsmallest n (colVal value_col) df₂
  (top_seqs.map (fun r => sequences r.ID), bottom_seqs.map (fun r => sequences r.ID))

/-- the module-scope names already bound when line 127 evaluates the default
expression of the `--model_path` argument: the imported names (lines 4-17),
the three function definitions, and `parser` itself (line 126).
`model_path` is assigned only on line 136, after parsing. -/
def moduleNamesBeforeModelPathDefault : List String :=
  ["argparse", "SeqIO", "sys", "torch", "BertForPreTraining", "pd", "np",
   "tqdm", "PeftConfig", "PeftModel", "load_model", "os", "mytok",
   "get_tokenizer", "encode_sequences", "fetch_steering_vector", "load_data",
   "parser", "__name__"]

/-- Python name resolution against an environment of bound names. -/
def lookupName (env : List String) (n : String) : Except String Unit :=
  if n ∈ env then Except.ok ()
  else Except.error ("NameError: name " ++ n ++ " is not defined")

/-- the `__main__` block (lines 125-160).  Building the argument parser
evaluates `default=model_path` (line 127) under the module-scope environment;
everything after it - parsing the arguments, loading tokenizer and model,
calling `fetch_steering_vector`, saving the array - is represented by the
success continuation, which is never reached. -/
def mainScript (_argv : List String) : Except String Unit :=
  match lookupName moduleNamesBeforeModelPathDefault "model_path" with
  | Except.error e => Except.error e
  | Except.ok _ => Except.ok ()

/-- a 2-d tensor has p rows of e entries each. -/
def rect2 (m : Tensor2) (p e : Nat) : Prop :=
  m.length = p ∧ ∀ r ∈ m, r.length = e

/-- a 3-d tensor has shape (n, p, e). -/
def rect3 (t : Tensor3) (n p e : Nat) : Prop :=
  t.length = n ∧ ∀ m ∈ t, rect2 m p e

/-- a 4-d tensor has shape (l, n, p, e). -/
def rect4 (t : Tensor4) (l n p e : Nat) : Prop :=
  t.length = l ∧ ∀ x ∈ t, rect3 x n p e

/-- a 4-d tensor with l layers whose axis-1 slices are nonempty lists of
(p, e) matrices, ragged in the axis-1 count (the shape of a batch
concatenation before mean pooling). -/
def rect4pos (t : Tensor4) (l p e : Nat) : Prop :=
  t.length = l ∧ ∀ x ∈ t, x ≠ [] ∧ ∀ m ∈ x, rect2 m p e

/-- a fixed vocabulary function for concrete evaluations. -/
def vocab0 : List Char → Nat := fun _ => 1

/-- a model returning no hidden states, for concrete evaluations. -/
def model0 : List (List Nat) → List Tensor3 := fun _ => []

/-- every member of a zipWith is the image of members of the two lists. -/
theorem exists_of_mem_zipWith {α : Type u} {β : Type v} {γ : Type w}
    {f : α → β → γ} {a : List α} {b : List β} {z : γ}
    (hz : z ∈ List.zipWith f a b) : ∃ x ∈ a, ∃ y ∈ b, z = f x y := by
  induction a generalizing b with
  | nil => simp at hz
  | cons x xs ih =>
    cases b with
    | nil => simp at hz
    | cons y ys =>
      rw [List.zipWith_cons_cons] at hz
      rcases List.mem_cons.mp hz with hz | hz
      · exact ⟨x, List.mem_cons_self x xs, y, List.mem_cons_self y ys, hz⟩
      · obtain ⟨x', hx', y', hy', hz'⟩ := ih hz
        exact ⟨x', List.mem_cons_of_mem x hx', y', List.mem_cons_of_mem y hy', hz'⟩

/-- negating a pointwise difference of vectors swaps its operands. -/
theorem neg1_sub1 (a b : Tensor1) : neg1 (sub1 b a) = sub1 a b := by
  induction a generalizing b with
  | nil => cases b <;> simp [neg1, sub1]
  | cons x xs ih =>
    cases b with
    | nil => simp [neg1, sub1]
    | cons y ys =>
      show neg1 ((y - x) :: sub1 ys xs) = (x - y) :: sub1 xs ys
      simp only [neg1, List.map_cons, neg_sub]
      exact congrArg _ (ih ys)

/-- negating a pointwise difference of matrices swaps its operands. -/
theorem neg2_sub2 (a b : Tensor2) : neg2 (sub2 b a) = sub2 a b := by
  induction a generalizing b with
  | nil => cases b <;> simp [neg2, sub2]
  | cons x xs ih =>
    cases b with
    | nil => simp [neg2, sub2]
    | cons y ys =>
      show neg2 (sub1 y x :: sub2 ys xs) = sub1 x y :: sub2 xs ys
      simp only [neg2, List.map_cons, neg1_sub1]
      exact congrArg _ (ih ys)

/-- negating a pointwise difference of 3-d tensors swaps its operands. -/
theorem neg3_sub3 (a b : Tensor3) : neg3 (sub3 b a) = sub3 a b := by
  induction a generalizing b with
  | nil => cases b <;> simp [neg3, sub3]
  | cons x xs ih =>
    cases b with
    | nil => simp [neg3, sub3]
    | cons y ys =>
      show neg3 (sub2 y x :: sub3 ys xs) = sub2 x y :: sub3 xs ys
      simp only [neg3, List.map_cons, neg2_sub2]
      exact congrArg _ (ih ys)

/-- negating a pointwise difference of 4-d tensors swaps its operands. -/
theorem neg4_sub4 (a b : Tensor4) : neg4 (sub4 b a) = sub4 a b := by
  induction a generalizing b with
  | nil => cases b <;> simp [neg4, sub4]
  | cons x xs ih =>
    cases b with
    | nil => simp [neg4, sub4]
    | cons y ys =>
      show neg4 (sub3 y x :: sub4 ys xs) = sub3 x y :: sub4 xs ys
      simp only [neg4, List.map_cons, neg3_sub3]
      exact congrArg _ (ih ys)

/-- a row of the fixed-length tokenizer output has exactly `max_length` ids. -/
theorem padded_row_length (ids : List Nat) (max_length : Nat) :
    (ids.take max_length ++ List.replicate (max_length - ids.length) 0).length
      = max_length := by
  simp [List.length_append, List.length_take, List.length_replicate]
  omega

/-- a nonempty group encodes to a token tensor whose `size(1)` is the fixed
padding length 1024. -/
theorem size1_encode (vocab : List Char → Nat) (ss : List (List Char))
    (h : ss ≠ []) : size1 (encode_sequences ss vocab 1024) = 1024 := by
  cases ss with
  | nil => exact absurd rfl h
  | cons s ss' =>
    show size1 (hfTokenize vocab 1024 ((s :: ss').map fun q => joinSpace (mytok q 3 3)))
        = 1024
    simp only [List.map_cons, hfTokenize, size1, List.headD_cons]
    exact padded_row_length _ _

/-- the fasta branch of `fetch_steering_vector` with both paths present:
encode both groups, check the size assertion, then aggregate. -/
theorem fetch_fasta_reduce (model : List (List Nat) → List Tensor3)
    (vocab : List Char → Nat) (percent lambda_ : Option ℚ)
    (hs ls : List (List Char)) :
    fetch_steering_vector "fasta" model vocab percent lambda_ (some hs) (some ls)
      = if size1 (encode_sequences hs vocab 1024)
            = size1 (encode_sequences ls vocab 1024) then
          Except.ok (aggregate "fasta" model (encode_sequences hs vocab 1024)
            (encode_sequences ls vocab 1024))
        else Except.error assertErrorSize := rfl

/-- with two nonempty fasta groups the call succeeds and returns the
aggregated difference. -/
theorem fetch_fasta_ok (model : List (List Nat) → List Tensor3)
    (vocab : List Char → Nat) (percent lambda_ : Option ℚ)
    (hs ls : List (List Char)) (hhs : hs ≠ []) (hls : ls ≠ []) :
    fetch_steering_vector "fasta" model vocab percent lambda_ (some hs) (some ls)
      = Except.ok (aggregate "fasta" model (encode_sequences hs vocab 1024)
          (encode_sequences ls vocab 1024)) := by
  rw [fetch_fasta_reduce, if_pos]
  rw [size1_encode vocab hs hhs, size1_encode vocab ls hls]

/-- C2: the final steering vector is the negation of the raw
(mean high) - (mean low) difference exactly when the data type is mfe;
for the other accepted data types the raw difference is returned unnegated
(lines 109-114; the aggregation step is stated on its own because the
non-fasta selection paths never reach it, see the name-resolution claim). -/
theorem mfe_negates_raw_difference (model : List (List Nat) → List Tensor3)
    (t l : List (List Nat)) :
    aggregate "mfe" model t l
      = neg4 (sub4 (groupPool model t) (groupPool model l)) ∧
    ∀ d : String, d = "cai" ∨ d = "mfe_cai" ∨ d = "fasta" →
      aggregate d model t l
        = sub4 (groupPool model t) (groupPool model l) := by
  constructor
  · unfold aggregate
    rw [if_pos rfl]
  · intro d hd
    unfold aggregate
    rcases hd with rfl | rfl | rfl <;> rw [if_neg (by decide)]

/-- witness for the mfe-negation claim at a concrete model and concrete
(empty) groups. -/
theorem mfe_negates_raw_difference_witness :
    aggregate "mfe" model0 [] []
      = neg4 (sub4 (groupPool model0 []) (groupPool model0 [])) ∧
    aggregate "fasta" model0 [] []
      = sub4 (groupPool model0 []) (groupPool model0 []) :=
  ⟨(mfe_negates_raw_difference model0 [] []).1,
   (mfe_negates_raw_difference model0 [] []).2 "fasta" (Or.inr (Or.inr rfl))⟩

/-- C3: in fasta mode, swapping the high and low FASTA files yields exactly
the negation of the steering vector obtained with the original order
(including agreement of the error outcomes). -/
theorem swap_fasta_paths_negates (model : List (List Nat) → List Tensor3)
    (vocab : List Char → Nat) (percent lambda_ : Option ℚ)
    (A B : List (List Char)) :
    fetch_steering_vector "fasta" model vocab percent lambda_ (some B) (some A)
      = Except.map neg4
          (fetch_steering_vector "fasta" model vocab percent lambda_
            (some A) (some B)) := by
  rw [fetch_fasta_reduce, fetch_fasta_reduce]
  by_cases h : size1 (encode_sequences B vocab 1024)
      = size1 (encode_sequences A vocab 1024)
  · rw [if_pos h, if_pos h.symm]
    show Except.ok _ = Except.map neg4 (Except.ok _)
    rw [show ∀ (v : Tensor4), Except.map neg4 (Except.ok v)
          = (Except.ok (neg4 v) : Except String Tensor4) from fun _ => rfl]
    refine congrArg Except.ok ?_
    unfold aggregate
    rw [if_neg (by decide), if_neg (by decide)]
    exact (neg4_sub4 _ _).symm
  · rw [if_neg h, if_neg (fun hh => h hh.symm)]
    rfl

/-- C6: an unrecognized data type raises the data-type ValueError, and
mfe_cai without the blending coefficient raises the lambda ValueError; both
results are independent of the model, the tokenizer and the sequence inputs,
so they occur before any selection or model computation (lines 33-48). -/
theorem validation_errors (dt : String)
    (hdt : pyLower dt ∉ (["mfe", "cai", "mfe_cai", "fasta"] : List String)) :
    (∀ (model : List (List Nat) → List Tensor3) (vocab : List Char → Nat)
       (percent lambda_ : Option ℚ)
       (high_fa_path low_fa_path : Option (List (List Char))),
      fetch_steering_vector dt model vocab percent lambda_
          high_fa_path low_fa_path
        = Except.error valueErrorDataType) ∧
    ∀ (model : List (List Nat) → List Tensor3) (vocab : List Char → Nat)
      (percent : Option ℚ)
      (high_fa_path low_fa_path : Option (List (List Char))),
      fetch_steering_vector "mfe_cai" model vocab percent none
          high_fa_path low_fa_path
        = Except.error valueErrorLambda := by
  constructor
  · intro model vocab percent lambda_ hfa lfa
    rw [List.mem_cons, List.mem_cons, List.mem_cons, List.mem_cons] at hdt
    push_neg at hdt
    obtain ⟨h1, h2, h3, h4, -⟩ := hdt
    simp only [fetch_steering_vector]
    rw [if_neg (by simp [h1, h2]), if_neg h3, if_neg h4]
  · intro model vocab percent hfa lfa
    rfl

/-- witness for the validation-error claim at the concrete data type bogus. -/
theorem validation_errors_witness :
    fetch_steering_vector "bogus" model0 vocab0 none none none none
      = Except.error valueErrorDataType ∧
    fetch_steering_vector "mfe_cai" model0 vocab0 none none none none
      = Except.error valueErrorLambda :=
  ⟨(validation_errors "bogus" (by decide)).1 model0 vocab0 none none none none,
   (validation_errors "bogus" (by decide)).2 model0 vocab0 none none none⟩

/-- C7: in fasta mode with both FASTA paths missing the call fails with the
path assertion, independently of the model, tokenizer and other arguments,
i.e. before any file is parsed and before any model computation
(lines 43-46). -/
theorem fasta_missing_paths_assertion
    (model : List (List Nat) → List Tensor3) (vocab : List Char → Nat)
    (percent lambda_ : Option ℚ) :
    fetch_steering_vector "fasta" model vocab percent lambda_ none none
      = Except.error assertErrorPaths := rfl

/-- C9: the mfe and cai modes with a selection percentage, and the mfe_cai
mode with a blending coefficient, all fail with the NameError on the
undefined table variable df before selecting any sequences; consequently a
call returns successfully only when the (lowered) data type is fasta
(lines 37-42 and 55-68). -/
theorem df_name_error_only_fasta_completes :
    (∀ (model : List (List Nat) → List Tensor3) (vocab : List Char → Nat)
       (p : ℚ) (lambda_ : Option ℚ)
       (high_fa_path low_fa_path : Option (List (List Char))),
      fetch_steering_vector "mfe" model vocab (some p) lambda_
          high_fa_path low_fa_path = Except.error nameErrorDf) ∧
    (∀ (model : List (List Nat) → List Tensor3) (vocab : List Char → Nat)
       (p : ℚ) (lambda_ : Option ℚ)
       (high_fa_path low_fa_path : Option (List (List Char))),
      fetch_steering_vector "cai" model vocab (some p) lambda_
          high_fa_path low_fa_path = Except.error nameErrorDf) ∧
    (∀ (model : List (List Nat) → List Tensor3) (vocab : List Char → Nat)
       (percent : Option ℚ) (lam : ℚ)
       (high_fa_path low_fa_path : Option (List (List Char))),
      fetch_steering_vector "mfe_cai" model vocab percent (some lam)
          high_fa_path low_fa_path = Except.error nameErrorDf) ∧
    ∀ (dt : String) (model : List (List Nat) → List Tensor3)
      (vocab : List Char → Nat) (percent lambda_ : Option ℚ)
      (high_fa_path low_fa_path : Option (List (List Char))) (v : Tensor4),
      fetch_steering_vector dt model vocab percent lambda_
          high_fa_path low_fa_path = Except.ok v →
        pyLower dt = "fasta" := by
  refine ⟨fun _ _ _ _ _ _ => rfl, fun _ _ _ _ _ _ => rfl,
    fun _ _ _ _ _ _ => rfl, ?_⟩
  intro dt model vocab percent lambda_ hfa lfa v h
  simp only [fetch_steering_vector] at h
  by_cases h1 : pyLower dt = "mfe" ∨ pyLower dt = "cai"
  · rw [if_pos h1] at h
    cases percent <;> exact Except.noConfusion h
  · rw [if_neg h1] at h
    by_cases h2 : pyLower dt = "mfe_cai"
    · rw [if_pos h2] at h
      cases lambda_ <;> exact Except.noConfusion h
    · rw [if_neg h2] at h
      by_cases h3 : pyLower dt = "fasta"
      · exact h3
      · rw [if_neg h3] at h
        exact Except.noConfusion h

/-- witness for the name-error claim: a concrete fasta call that does return
successfully, fed to the only-fasta-completes implication. -/
theorem df_name_error_only_fasta_completes_witness :
    pyLower "fasta" = "fasta" :=
  df_name_error_only_fasta_completes.2.2.2 "fasta" model0 vocab0 none none
    (some [['A', 'A', 'A']]) (some [['A', 'A', 'A']]) [] rfl

/-- C10: every invocation of the script fails with the NameError on
model_path while constructing the argument parser (line 127 reads the
default before any assignment), so no invocation reaches argument parsing,
model loading, vector computation, or saving. -/
theorem main_model_path_name_error (argv : List String) :
    mainScript argv = Except.error "NameError: name model_path is not defined"
    := rfl

/-- adding two matrices of shape (p, e) yields a matrix of shape (p, e). -/
theorem rect2_add2 {a b : Tensor2} {p e : Nat} (ha : rect2 a p e)
    (hb : rect2 b p e) : rect2 (add2 a b) p e := by
  constructor
  · simp [add2, List.length_zipWith, ha.1, hb.1]
  · intro r hr
    obtain ⟨x, hx, y, hy, rfl⟩ := exists_of_mem_zipWith hr
    simp [List.length_zipWith, ha.2 x hx, hb.2 y hy]

/-- summing a nonempty list of (p, e) matrices yields a (p, e) matrix. -/
theorem rect2_sum2 : ∀ (xs : List Tensor2) (p e : Nat), xs ≠ [] →
    (∀ m ∈ xs, rect2 m p e) → rect2 (sum2 xs) p e
  | [], _, _, hne, _ => absurd rfl hne
  | [x], p, e, _, h => by simpa [sum2] using h x (by simp)
  | x :: y :: ys, p, e, _, h => by
    have hrest := rect2_sum2 (y :: ys) p e (by simp)
      (fun m hm => h m (List.mem_cons_of_mem x hm))
    exact rect2_add2 (h x (List.mem_cons_self x _)) hrest

/-- the mean of a nonempty list of (p, e) matrices is a (p, e) matrix. -/
theorem rect2_mean2 {xs : List Tensor2} {p e : Nat} (hne : xs ≠ [])
    (h : ∀ m ∈ xs, rect2 m p e) : rect2 (mean2 xs) p e := by
  have hs := rect2_sum2 xs p e hne h
  constructor
  · simp [mean2, hs.1]
  · intro r hr
    simp only [mean2, List.mem_map] at hr
    obtain ⟨row, hrow, rfl⟩ := hr
    simp [hs.2 row hrow]

/-- concatenating well-shaped layer stacks along dim 1 preserves the layer
count, the positivity of the axis-1 slices and the (p, e) shape of the
matrices. -/
theorem rect4pos_catDim1 : ∀ (ts : List Tensor4) (l p e : Nat), ts ≠ [] →
    (∀ t ∈ ts, rect4pos t l p e) → rect4pos (catDim1 ts) l p e
  | [], _, _, _, hne, _ => absurd rfl hne
  | [t], l, p, e, _, h => by simpa [catDim1] using h t (by simp)
  | t :: t₂ :: ts, l, p, e, _, h => by
    have hrest := rect4pos_catDim1 (t₂ :: ts) l p e (by simp)
      (fun u hu => h u (List.mem_cons_of_mem t hu))
    have ht := h t (List.mem_cons_self t _)
    show rect4pos (List.zipWith (fun a b => a ++ b) t (catDim1 (t₂ :: ts))) l p e
    constructor
    · rw [List.length_zipWith, ht.1, hrest.1, Nat.min_self]
    · intro x hx
      obtain ⟨u, hu, v, hv, rfl⟩ := exists_of_mem_zipWith hx
      have hu' := ht.2 u hu
      have hv' := hrest.2 v hv
      constructor
      · intro hc
        exact hu'.1 (List.append_eq_nil.mp hc).1
      · intro m hm
        rcases List.mem_append.mp hm with hm | hm
        · exact hu'.2 m hm
        · exact hv'.2 m hm

/-- mean pooling over dim 1 with keepdims turns an (l, > 0, p, e) tensor into
an (l, 1, p, e) tensor. -/
theorem rect4_meanDim1Keep {t : Tensor4} {l p e : Nat}
    (h : rect4pos t l p e) : rect4 (meanDim1Keep t) l 1 p e := by
  constructor
  · simp [meanDim1Keep, h.1]
  · intro x hx
    simp only [meanDim1Keep, List.mem_map] at hx
    obtain ⟨layer, hl, rfl⟩ := hx
    have hlay := h.2 layer hl
    refine ⟨by simp, ?_⟩
    intro m hm
    rw [List.mem_singleton] at hm
    subst hm
    exact rect2_mean2 hlay.1 hlay.2

/-- every batch slice produced by `chunks 32` is nonempty. -/
theorem chunks32_mem_ne {α : Type u} {l : List α} {c : List α}
    (hc : c ∈ chunks 32 l) : c ≠ [] := by
  simp only [chunks, List.mem_map, List.mem_range] at hc
  obtain ⟨i, hi, rfl⟩ := hc
  intro hc0
  have h0 : ((l.drop (i * 32)).take 32).length = 0 := by rw [hc0]; rfl
  rw [List.length_take, List.length_drop] at h0
  omega

/-- a nonempty list has at least one batch slice. -/
theorem chunks32_ne {α : Type u} {l : List α} (h : l ≠ []) :
    chunks 32 l ≠ [] := by
  have hl : l.length ≠ 0 := fun hc => h (List.length_eq_zero.mp hc)
  simp only [chunks, ne_eq, List.map_eq_nil_iff, List.range_eq_nil]
  omega

/-- when the model returns nL + 1 hidden-state tensors of shape
(batch, p, e) for every batch, pooling a nonempty group yields an
(nL, 1, p, e) tensor. -/
theorem rect4_groupPool (model : List (List Nat) → List Tensor3)
    (nL p e : Nat) (seqs : List (List Nat))
    (hm : ∀ b : List (List Nat), (model b).length = nL + 1 ∧
      ∀ t ∈ model b, rect3 t b.length p e)
    (hne : seqs ≠ []) : rect4 (groupPool model seqs) nL 1 p e := by
  apply rect4_meanDim1Keep
  apply rect4pos_catDim1
  · intro hc
    exact chunks32_ne hne (List.map_eq_nil_iff.mp hc)
  · intro t ht
    simp only [List.mem_map] at ht
    obtain ⟨c, hc, rfl⟩ := ht
    have hcne : c ≠ [] := chunks32_mem_ne hc
    constructor
    · show ((model c).drop 1).length = nL
      rw [List.length_drop, (hm c).1]
      simp
    · intro x hx
      have hx' : x ∈ model c := List.mem_of_mem_drop hx
      have hr3 := (hm c).2 x hx'
      refine ⟨?_, hr3.2⟩
      intro hx0
      rw [hx0] at hr3
      exact hcne (List.length_eq_zero.mp (List.length_nil ▸ hr3.1).symm)

/-- subtracting two (p, e) matrices yields a (p, e) matrix. -/
theorem rect2_sub2 {a b : Tensor2} {p e : Nat} (ha : rect2 a p e)
    (hb : rect2 b p e) : rect2 (sub2 a b) p e := by
  constructor
  · simp [sub2, List.length_zipWith, ha.1, hb.1]
  · intro r hr
    obtain ⟨x, hx, y, hy, rfl⟩ := exists_of_mem_zipWith hr
    simp [sub1, List.length_zipWith, ha.2 x hx, hb.2 y hy]

/-- subtracting two (n, p, e) tensors yields an (n, p, e) tensor. -/
theorem rect3_sub3 {a b : Tensor3} {n p e : Nat} (ha : rect3 a n p e)
    (hb : rect3 b n p e) : rect3 (sub3 a b) n p e := by
  constructor
  · simp [sub3, List.length_zipWith, ha.1, hb.1]
  · intro m hm
    obtain ⟨x, hx, y, hy, rfl⟩ := exists_of_mem_zipWith hm
    exact rect2_sub2 (ha.2 x hx) (hb.2 y hy)

/-- subtracting two (l, n, p, e) tensors yields an (l, n, p, e) tensor. -/
theorem rect4_sub4 {a b : Tensor4} {l n p e : Nat} (ha : rect4 a l n p e)
    (hb : rect4 b l n p e) : rect4 (sub4 a b) l n p e := by
  constructor
  · simp [sub4, List.length_zipWith, ha.1, hb.1]
  · intro x hx
    obtain ⟨u, hu, v, hv, rfl⟩ := exists_of_mem_zipWith hx
    exact rect3_sub3 (ha.2 u hu) (hb.2 v hv)

/-- a nonempty group encodes to a nonempty token tensor. -/
theorem encode_ne {vocab : List Char → Nat} {ss : List (List Char)}
    (h : ss ≠ []) : encode_sequences ss vocab 1024 ≠ [] := by
  cases ss with
  | nil => exact absurd rfl h
  | cons s ss' => simp [encode_sequences, hfTokenize]

/-- a model with encoder depth 1 and embedding size 1 that returns constant
well-shaped hidden states, for concrete evaluations. -/
def model1 : List (List Nat) → List Tensor3 :=
  fun b => List.replicate 2 (b.map (fun _ => List.replicate 1024 [(0 : ℚ)]))

/-- the concrete model `model1` satisfies the hidden-state shape contract
with depth 1 and embedding size 1. -/
theorem model1_shape : ∀ b : List (List Nat), (model1 b).length = 1 + 1 ∧
    ∀ t ∈ model1 b, rect3 t b.length 1024 1 := by
  intro b
  refine ⟨by simp [model1], ?_⟩
  intro t ht
  simp only [model1] at ht
  rw [List.eq_of_mem_replicate ht]
  refine ⟨by simp, ?_⟩
  intro m hm
  simp only [List.mem_map] at hm
  obtain ⟨a, ha, rfl⟩ := hm
  refine ⟨by simp, ?_⟩
  intro r hr
  rw [List.eq_of_mem_replicate hr]
  rfl

/-- C1: in fasta mode, when the model returns nL + 1 hidden-state tensors
per batch (the first being the pre-encoder embedding that is dropped) of
per-position width 1024 and embedding size e, the returned steering vector
has shape (nL, 1, 1024, e): encoder depth many layers, a singleton mean
axis, the fixed padding length, and the embedding size. -/
theorem fasta_steering_vector_shape (model : List (List Nat) → List Tensor3)
    (vocab : List Char → Nat) (nL e : Nat) (hs ls : List (List Char))
    (hm : ∀ b : List (List Nat), (model b).length = nL + 1 ∧
      ∀ t ∈ model b, rect3 t b.length 1024 e)
    (hhs : hs ≠ []) (hls : ls ≠ []) :
    ∃ v, fetch_steering_vector "fasta" model vocab none none
        (some hs) (some ls) = Except.ok v ∧ rect4 v nL 1 1024 e := by
  refine ⟨_, fetch_fasta_ok model vocab none none hs ls hhs hls, ?_⟩
  unfold aggregate
  rw [if_neg (by decide)]
  exact rect4_sub4 (rect4_groupPool model nL 1024 e _ hm (encode_ne hhs))
    (rect4_groupPool model nL 1024 e _ hm (encode_ne hls))

/-- witness for the fasta shape claim at a concrete model of depth 1 and
embedding size 1 and two concrete one-record FASTA groups. -/
theorem fasta_steering_vector_shape_witness :
    ∃ v, fetch_steering_vector "fasta" model1 vocab0 none none
        (some [['A', 'A', 'A']]) (some [['C', 'C']]) = Except.ok v ∧
      rect4 v 1 1 1024 1 :=
  fasta_steering_vector_shape model1 vocab0 1 1 [['A', 'A', 'A']] [['C', 'C']]
    model1_shape (List.cons_ne_nil _ _) (List.cons_ne_nil _ _)

/-- C8: for nonempty groups the high and low token tensors always have the
same `size(1)` (both are padded to the fixed length 1024), so the token
length assertion before the forward pass never fires: the call never
returns the size assertion error. -/
theorem token_length_assert_unreachable (vocab : List Char → Nat)
    (hs ls : List (List Char)) (model : List (List Nat) → List Tensor3)
    (percent lambda_ : Option ℚ) (hhs : hs ≠ []) (hls : ls ≠ []) :
    size1 (encode_sequences hs vocab 1024)
      = size1 (encode_sequences ls vocab 1024) ∧
    fetch_steering_vector "fasta" model vocab percent lambda_
        (some hs) (some ls) ≠ Except.error assertErrorSize := by
  refine ⟨(size1_encode vocab hs hhs).trans (size1_encode vocab ls hls).symm, ?_⟩
  rw [fetch_fasta_ok model vocab percent lambda_ hs ls hhs hls]
  exact fun hc => Except.noConfusion hc

/-- witness for the unreachable-assertion claim at concrete groups of
different record counts and sequence lengths. -/
theorem token_length_assert_unreachable_witness :
    size1 (encode_sequences [['A', 'A', 'A']] vocab0 1024)
      = size1 (encode_sequences [['C', 'C']] vocab0 1024) ∧
    fetch_steering_vector "fasta" model0 vocab0 none none
        (some [['A', 'A', 'A']]) (some [['C', 'C']])
      ≠ Except.error assertErrorSize :=
  token_length_assert_unreachable vocab0 [['A', 'A', 'A']] [['C', 'C']] model0
    none none (List.cons_ne_nil _ _) (List.cons_ne_nil _ _)

/-- splitting a space-free string on spaces gives the string itself as the
single token. -/
theorem splitOnSpace_of_not_mem : ∀ {t : List Char}, spaceChar ∉ t →
    splitOnSpace t = [t]
  | [], _ => rfl
  | c :: cs, h => by
    rw [List.mem_cons, not_or] at h
    rw [splitOnSpace, if_neg (fun hc => h.1 hc.symm),
      splitOnSpace_of_not_mem h.2]

/-- splitting peels off a leading space-free token followed by a space. -/
theorem splitOnSpace_append : ∀ {t : List Char} (r : List Char),
    spaceChar ∉ t → splitOnSpace (t ++ spaceChar :: r) = t :: splitOnSpace r
  | [], r, _ => by
    rw [List.nil_append, splitOnSpace, if_pos rfl]
  | c :: cs, r, h => by
    rw [List.mem_cons, not_or] at h
    rw [List.cons_append, splitOnSpace, if_neg (fun hc => h.1 hc.symm),
      splitOnSpace_append r h.2]

/-- splitting on spaces undoes the space-join of a nonempty list of
space-free tokens. -/
theorem splitOnSpace_joinSpace : ∀ (ts : List (List Char)), ts ≠ [] →
    (∀ t ∈ ts, spaceChar ∉ t) → splitOnSpace (joinSpace ts) = ts
  | [], hne, _ => absurd rfl hne
  | [t], _, h => splitOnSpace_of_not_mem (h t (by simp))
  | t :: t₂ :: ts, _, h => by
    rw [show joinSpace (t :: t₂ :: ts) = t ++ spaceChar :: joinSpace (t₂ :: ts)
        from rfl]
    rw [splitOnSpace_append _ (h t (List.mem_cons_self t _))]
    rw [splitOnSpace_joinSpace (t₂ :: ts) (by simp)
      (fun u hu => h u (List.mem_cons_of_mem t hu))]

/-- every 3-mer of a space-free sequence is space-free. -/
theorem mytok_spacefree {s : List Char} (h : spaceChar ∉ s) :
    ∀ t ∈ mytok s 3 3, spaceChar ∉ t := by
  intro t ht hsp
  simp only [mytok, List.mem_map, List.mem_range] at ht
  obtain ⟨j, hj, rfl⟩ := ht
  exact h (List.drop_subset j s (List.take_subset 3 _ hsp))

/-- a sequence of at least 3 characters has at least one 3-mer. -/
theorem mytok_ne {s : List Char} (h : 3 ≤ s.length) : mytok s 3 3 ≠ [] := by
  simp only [mytok, ne_eq, List.map_eq_nil_iff, List.range_eq_nil]
  omega

/-- C4: `encode_sequences` maps each input sequence to one row, every row is
padded/truncated to exactly 1024 token ids, and for a space-free sequence of
length at least 3 the row consists of the vocabulary ids of precisely the
overlapping 3-character windows of the sequence (one window starting at
every position), space-joined and then split back by the tokenizer. -/
theorem encode_sequences_tokenization (seqs : List (List Char))
    (vocab : List Char → Nat) :
    (encode_sequences seqs vocab 1024).length = seqs.length ∧
    (∀ row ∈ encode_sequences seqs vocab 1024, row.length = 1024) ∧
    ∀ s : List Char, spaceChar ∉ s → 3 ≤ s.length →
      encode_sequences [s] vocab 1024
        = [((mytok s 3 3).map vocab).take 1024
            ++ List.replicate (1024 - (mytok s 3 3).length) 0] ∧
      mytok s 3 3
        = (List.range (s.length - 2)).map (fun j => (s.drop j).take 3) := by
  refine ⟨by simp [encode_sequences, hfTokenize], ?_, ?_⟩
  · intro row hrow
    simp only [encode_sequences, hfTokenize, List.map_map, List.mem_map] at hrow
    obtain ⟨s, hsmem, rfl⟩ := hrow
    exact padded_row_length _ _
  · intro s hsp hlen
    constructor
    · show hfTokenize vocab 1024 ([s].map fun q => joinSpace (mytok q 3 3)) = _
      simp only [List.map_cons, List.map_nil, hfTokenize]
      rw [splitOnSpace_joinSpace (mytok s 3 3) (mytok_ne hlen)
        (mytok_spacefree hsp)]
      simp [List.length_map]
    · rfl

/-- witness for the tokenization claim at the concrete sequence ACGU. -/
theorem encode_sequences_tokenization_witness :
    encode_sequences [['A', 'C', 'G', 'U']] vocab0 1024
        = [((mytok ['A', 'C', 'G', 'U'] 3 3).map vocab0).take 1024
            ++ List.replicate (1024 - (mytok ['A', 'C', 'G', 'U'] 3 3).length) 0]
      ∧ mytok ['A', 'C', 'G', 'U'] 3 3
        = (List.range ((['A', 'C', 'G', 'U'] : List Char).length - 2)).map
            (fun j => ((['A', 'C', 'G', 'U'] : List Char).drop j).take 3) :=
  (encode_sequences_tokenization [['A', 'C', 'G', 'U']] vocab0).2.2
    ['A', 'C', 'G', 'U'] (by decide) (by decide)

/-- descending insertion grows the list by one row. -/
theorem insertDesc_length (key : ScoreRow → ℚ) (x : ScoreRow) :
    ∀ l : List ScoreRow, (insertDesc key x l).length = l.length + 1
  | [] => rfl
  | y :: ys => by
    rw [insertDesc]
    split
    · rfl
    · simp [insertDesc_length key x ys]

/-- descending sorting preserves the number of rows. -/
theorem sortDesc_length (key : ScoreRow → ℚ) :
    ∀ l : List ScoreRow, (sortDesc key l).length = l.length
  | [] => rfl
  | x :: xs => by
    rw [sortDesc, insertDesc_length, sortDesc_length key xs, List.length_cons]

/-- ascending insertion grows the list by one row. -/
theorem insertAsc_length (key : ScoreRow → ℚ) (x : ScoreRow) :
    ∀ l : List ScoreRow, (insertAsc key x l).length = l.length + 1
  | [] => rfl
  | y :: ys => by
    rw [insertAsc]
    split
    · rfl
    · simp [insertAsc_length key x ys]

/-- ascending sorting preserves the number of rows. -/
theorem sortAsc_length (key : ScoreRow → ℚ) :
    ∀ l : List ScoreRow, (sortAsc key l).length = l.length
  | [] => rfl
  | x :: xs => by
    rw [sortAsc, insertAsc_length, sortAsc_length key xs, List.length_cons]

/-- C5: with percent 0.1 and a table of 100 rows after length filtering, the
percentile selection computes n = int(len(df) * percent) = 10 and picks
exactly 10 rows for the top group and 10 rows for the bottom group. -/
theorem percent_selection_counts (df : List ScoreRow)
    (sequences : List Char → List Char) (value_col : String)
    (min_seq_len max_seq_len : Nat)
    (h : (lengthFilter df sequences min_seq_len max_seq_len).length = 100) :
    (selectPercent df sequences value_col (1 / 10) min_seq_len
        max_seq_len).1.length = 10 ∧
    (selectPercent df sequences value_col (1 / 10) min_seq_len
        max_seq_len).2.length = 10 := by
  have h10 : (pyInt (((100 : Nat) : ℚ) * (1 / 10))).toNat = 10 := by
    rw [show (((100 : Nat) : ℚ) * (1 / 10)) = (10 : ℚ) by norm_num]
    simp [pyInt, Rat.num_ofNat, Rat.den_ofNat]
  constructor
  · simp only [selectPercent, nlargest, List.length_map, List.length_take,
      sortDesc_length, h, h10]
    omega
  · simp only [selectPercent, nsmallest, List.length_map, List.length_take,
      sortAsc_length, h, h10]
    omega

/-- a sequence lookup mapping every id to the empty sequence, for concrete
evaluations. -/
def seqs0 : List Char → List Char := fun _ => []

/-- a concrete score table of 100 identical rows. -/
def df0 : List ScoreRow := (List.range 100).map (fun _ => ⟨[], 0, 0⟩)

/-- witness for the percentile-count claim on the concrete 100-row table. -/
theorem percent_selection_counts_witness :
    (selectPercent df0 seqs0 "CAI" (1 / 10) 0 5).1.length = 10 ∧
    (selectPercent df0 seqs0 "CAI" (1 / 10) 0 5).2.length = 10 :=
  percent_selection_counts df0 seqs0 "CAI" 0 5 (by decide)
